import Mathlib

/-!
Verification of the RAG subsystem of the customer-support-agent repository.

The development shallowly embeds the Python sources:
  backend/app/tools/rag_tool.py        (RAGTool: cached search, add_document)
  backend/app/core/cache.py            (CacheManager: get / set / clear_pattern)
  backend/app/vector_store/embeddings.py (EmbeddingModel.embed_documents)
  backend/scripts/populate_kb.py       (TextChunker.chunk_text,
                                        KnowledgeBasePopulator: process_document,
                                        process_batch, store_chunks,
                                        _generate_chunk_id, populate)

Modelling conventions:
  * Python `str` values that are sliced by character position are modelled as
    `List Char` (Python strings are sequences of Unicode code points).
  * Python dicts used as metadata are modelled as association lists with
    first-binding-wins lookup; `dict.update` / insertion is modelled by
    prepending the new binding, which has the same lookup semantics as
    overwriting.
  * A Python function that can raise is modelled with `Option` (`none` = an
    exception was raised) or with `PyResult` when non-termination must also be
    distinguished.
  * External collaborators (the HuggingFace embedding model, the Chroma
    collection, Redis availability) are passed in as explicit oracles, exactly
    at the boundary where the source calls them.
  * `hashlib.md5(...).hexdigest()` is embedded as a full executable MD5 over
    the UTF-8 encoding of the string, so key-derivation facts are computed,
    not assumed.
-/

/-! ## MD5 (hashlib.md5(x.encode()).hexdigest()) -/

/-- Truncation to a 32-bit word, the wrap-around of Python/C MD5 arithmetic. -/
def w32 (x : Nat) : Nat := x % 4294967296

/-- Left-rotation of a 32-bit word by `s` bits. -/
def leftrotate (x s : Nat) : Nat :=
  w32 ((x <<< s) ||| (x >>> (32 - s)))

/-- Bitwise complement of a 32-bit word. -/
def md5Not (x : Nat) : Nat := 4294967295 ^^^ x

/-- The 64 MD5 round constants, floor(abs(sin(i+1)) * 2^32). -/
def md5K : List Nat :=
  [0xd76aa478, 0xe8c7b756, 0x242070db, 0xc1bdceee,
   0xf57c0faf, 0x4787c62a, 0xa8304613, 0xfd469501,
   0x698098d8, 0x8b44f7af, 0xffff5bb1, 0x895cd7be,
   0x6b901122, 0xfd987193, 0xa679438e, 0x49b40821,
   0xf61e2562, 0xc040b340, 0x265e5a51, 0xe9b6c7aa,
   0xd62f105d, 0x02441453, 0xd8a1e681, 0xe7d3fbc8,
   0x21e1cde6, 0xc33707d6, 0xf4d50d87, 0x455a14ed,
   0xa9e3e905, 0xfcefa3f8, 0x676f02d9, 0x8d2a4c8a,
   0xfffa3942, 0x8771f681, 0x6d9d6122, 0xfde5380c,
   0xa4beea44, 0x4bdecfa9, 0xf6bb4b60, 0xbebfbc70,
   0x289b7ec6, 0xeaa127fa, 0xd4ef3085, 0x04881d05,
   0xd9d4d039, 0xe6db99e5, 0x1fa27cf8, 0xc4ac5665,
   0xf4292244, 0x432aff97, 0xab9423a7, 0xfc93a039,
   0x655b59c3, 0x8f0ccc92, 0xffeff47d, 0x85845dd1,
   0x6fa87e4f, 0xfe2ce6e0, 0xa3014314, 0x4e0811a1,
   0xf7537e82, 0xbd3af235, 0x2ad7d2bb, 0xeb86d391]

/-- The per-round left-rotation amounts. -/
def md5S : List Nat :=
  [7, 12, 17, 22, 7, 12, 17, 22, 7, 12, 17, 22, 7, 12, 17, 22,
   5, 9, 14, 20, 5, 9, 14, 20, 5, 9, 14, 20, 5, 9, 14, 20,
   4, 11, 16, 23, 4, 11, 16, 23, 4, 11, 16, 23, 4, 11, 16, 23,
   6, 10, 15, 21, 6, 10, 15, 21, 6, 10, 15, 21, 6, 10, 15, 21]

/-- The round mixing function of MD5, by round index. -/
def md5F (i b c d : Nat) : Nat :=
  if i < 16 then (b &&& c) ||| (md5Not b &&& d)
  else if i < 32 then (d &&& b) ||| (md5Not d &&& c)
  else if i < 48 then b ^^^ c ^^^ d
  else c ^^^ (b ||| md5Not d)

/-- The message-word index used at round `i`. -/
def md5G (i : Nat) : Nat :=
  if i < 16 then i
  else if i < 32 then (5 * i + 1) % 16
  else if i < 48 then (3 * i + 5) % 16
  else (7 * i) % 16

/-- `k` bytes of `x`, little-endian. -/
def leBytes : Nat → Nat → List Nat
  | 0, _ => []
  | k + 1, x => (x % 256) :: leBytes k (x / 256)

/-- Group a 64-byte block into 16 little-endian 32-bit words. -/
def toWords : List Nat → List Nat
  | b0 :: b1 :: b2 :: b3 :: rest =>
      (b0 + 256 * (b1 + 256 * (b2 + 256 * b3))) :: toWords rest
  | _ => []

/-- One MD5 round applied to the running `(a, b, c, d)` state. -/
def md5Round (M : List Nat) (st : Nat × Nat × Nat × Nat) (i : Nat) :
    Nat × Nat × Nat × Nat :=
  let (a, b, c, d) := st
  let f := w32 (md5F i b c d + a + md5K.getD i 0 + M.getD (md5G i) 0)
  (d, w32 (b + leftrotate f (md5S.getD i 0)), b, c)

/-- Process one 64-byte block. -/
def md5Block (st : Nat × Nat × Nat × Nat) (block : List Nat) :
    Nat × Nat × Nat × Nat :=
  let M := toWords block
  let (a, b, c, d) := (List.range 64).foldl (md5Round M) st
  let (a0, b0, c0, d0) := st
  (w32 (a + a0), w32 (b + b0), w32 (c + c0), w32 (d + d0))

/-- MD5 padding: append 0x80, zero bytes to 56 mod 64, then the bit length
as 8 little-endian bytes. -/
def md5Pad (msg : List Nat) : List Nat :=
  let padZeros := (119 - msg.length % 64) % 64
  msg ++ [128] ++ List.replicate padZeros 0 ++ leBytes 8 (msg.length * 8)

/-- Split a byte list into 64-byte blocks; the first argument is fuel,
instantiated with the list length (one block consumes 64 ≥ 1 bytes, so the
length always suffices). -/
def toBlocksN : Nat → List Nat → List (List Nat)
  | 0, _ => []
  | k + 1, l => if l = [] then [] else l.take 64 :: toBlocksN k (l.drop 64)

/-- Split the padded message into 64-byte blocks. -/
def toBlocks (l : List Nat) : List (List Nat) := toBlocksN l.length l

/-- Hex digit characters, lowercase as `hexdigest` produces. -/
def hexChar (n : Nat) : Char :=
  if n < 10 then Char.ofNat (48 + n) else Char.ofNat (87 + n)

/-- Two-character lowercase hex of one byte. -/
def byteToHex (b : Nat) : List Char := [hexChar (b / 16), hexChar (b % 16)]

/-- MD5 digest of a byte sequence, rendered as the 32-character lowercase hex
string returned by `hexdigest()`. -/
def md5hexBytes (msg : List Nat) : String :=
  let st := (toBlocks (md5Pad msg)).foldl md5Block
    (0x67452301, 0xefcdab89, 0x98badcfe, 0x10325476)
  let (a, b, c, d) := st
  ⟨((leBytes 4 a ++ leBytes 4 b ++ leBytes 4 c ++ leBytes 4 d).map byteToHex).flatten⟩

/-- UTF-8 bytes of one character, as `str.encode()` produces. -/
def utf8Char (c : Char) : List Nat :=
  let n := c.toNat
  if n < 128 then [n]
  else if n < 2048 then [192 + n / 64, 128 + n % 64]
  else if n < 65536 then
    [224 + n / 4096, 128 + (n / 64) % 64, 128 + n % 64]
  else
    [240 + n / 262144, 128 + (n / 4096) % 64, 128 + (n / 64) % 64, 128 + n % 64]

/-- UTF-8 encoding of a string, the Python `s.encode()`. -/
def utf8Encode (s : String) : List Nat := (s.data.map utf8Char).flatten

/-- `hashlib.md5(s.encode()).hexdigest()`. -/
def md5hex (s : String) : String := md5hexBytes (utf8Encode s)

/-! ## RAGTool cache-key derivation (rag_tool.py, `_generate_cache_key`) -/

/-- RAGTool._generate_cache_key: the key is the MD5 of the raw query string,
with the requested result count appended. -/
def generate_cache_key (query : String) (n_results : Nat) : String :=
  "rag_query:" ++ md5hex query ++ ":" ++ toString n_results

/-! ## Metadata dictionaries

Python dicts carrying document/chunk metadata, modelled as association lists
with first-binding-wins lookup. `dict.update` with a key is modelled by
prepending the binding, which has the same lookup semantics as overwriting. -/

/-- A metadata value: the sources only store strings and integers in the
metadata fields the claims are about. -/
inductive MVal where
  | s : String → MVal
  | n : Nat → MVal
deriving DecidableEq, Repr

/-- A metadata dictionary. -/
abbrev Meta := List (String × MVal)

/-- Dict lookup: first binding wins. A `none` result models a `KeyError`
on subscript access and falsiness of `dict.get`. -/
def dictGet (d : Meta) (k : String) : Option MVal := d.lookup k

/-- Dict insertion/overwrite (`d[k] = v`, `d.update(...)` per key). -/
def dictSet (d : Meta) (k : String) (v : MVal) : Meta := (k, v) :: d

/-- Python `str()` of a metadata value, as an f-string would render it. -/
def mvalStr (v : MVal) : String :=
  match v with
  | .s x => x
  | .n x => toString x

/-! ## Embeddings (embeddings.py, `EmbeddingModel.embed_documents`)

The underlying model call `embed_document` is the external boundary: it is
passed in as an oracle `embedFn` where `none` models a raised exception.
`dim` models `self.model.config.hidden_size`, the model's known output
dimensionality. Vector components are opaque numeric values never computed
on; they are modelled as integers. -/

/-- The zero-vector fallback `[0.0] * self.model.config.hidden_size`. -/
def zeroVec (dim : Nat) : List Int := List.replicate dim 0

/-- EmbeddingModel.embed_documents: embed each text; on a per-item exception
append a zero vector of the model dimensionality and continue. -/
def embed_documents (dim : Nat) (embedFn : String → Option (List Int))
    (documents : List String) : List (List Int) :=
  documents.map fun doc =>
    match embedFn doc with
    | some embedding => embedding
    | none => zeroVec dim

/-! ## Query cache (cache.py, `CacheManager`)

The Redis store is modelled as an association list from keys to stored
search results, with first-binding-wins lookup; `set` prepends (Redis SET
overwrites, and lookup-first gives exactly that semantics). TTLs are
recorded but expiry is outside the model: every claim about the cache is a
within-TTL claim. The claims are about the behaviour with an available
backing store; outage degradation (`is_available`) is not involved in any
claim. -/

/-- The result dict a RAGTool action returns. -/
inductive RagResult where
  /-- An `error` payload such as Search failed / Query is required. -/
  | error (msg : String)
  /-- A `documents` payload: id, content, metadata, distance per hit.
  Distances are opaque scores, `none` when Chroma returned no distances. -/
  | documents (docs : List (String × String × Meta × Option Int))
  /-- The `success` payload of `_add_document`. -/
  | success (msg : String)
deriving DecidableEq

/-- The cache contents. -/
abbrev Cache := List (String × RagResult)

/-- CacheManager.get. -/
def cache_get (c : Cache) (k : String) : Option RagResult := c.lookup k

/-- CacheManager.set with a TTL; the entry is stored (expiry is outside the
model, see above). -/
def cache_set (c : Cache) (k : String) (v : RagResult) (_ttl : Nat) : Cache :=
  (k, v) :: c

/-- Boolean test that `pre` is a leading substring of `s`. -/
def strStarts (s pre : String) : Bool := pre.data.isPrefixOf s.data

/-- CacheManager.clear_pattern for a Redis glob of the shape `p*` (the only
shape the sources use): delete every key beginning with `p`. The model takes
the part of the pattern before the trailing star. -/
def clear_pattern (pat : String) (c : Cache) : Cache :=
  c.filter fun kv => !(strStarts kv.1 pat)

/-! ## RAGTool search (rag_tool.py, `_search` and `_search_cached`)

External boundaries passed as oracles: `embedQ` is
`EmbeddingModel.embed_query` (`none` = raised), `chromaQ` is
`ChromaClient.query` (`none` = raised). The `[0]`-indexed per-query result
lists of the Chroma response are modelled directly. -/

/-- The Chroma query response restricted to the single query's result lists.
`metadatas?` is `none` when `results["metadatas"]` is falsy; `distances?` is
`none` when the `"distances"` key is absent. -/
structure ChromaResult where
  ids : List String
  documents : List String
  metadatas? : Option (List Meta)
  distances? : Option (List Int)

/-- The result-formatting loop of `_search`: for each returned document text,
index the parallel `ids`/`metadatas`/`distances` lists. An out-of-range
index models the `IndexError` the surrounding `except` would catch. -/
def formatResults (r : ChromaResult) : Nat → List String → Option (List (String × String × Meta × Option Int))
  | _, [] => some []
  | i, doc :: rest => do
    let theId ← r.ids[i]?
    let md ← match r.metadatas? with
             | some ms => ms[i]?
             | none => some []
    let dist ← match r.distances? with
               | some ds => (ds[i]?).map some
               | none => some none
    let tail ← formatResults r (i + 1) rest
    some ((theId, doc, md, dist) :: tail)

/-- What `_search` did: its returned payload and which collaborators ran. -/
structure SearchTrace where
  result : RagResult
  embedCalled : Bool
  queryCalled : Bool
deriving DecidableEq

/-- RAGTool._search: embed the query, query Chroma, format; any exception is
caught and becomes an `error` payload (the exception text is abstracted). -/
def rag_search (embedQ : String → Option (List Int))
    (chromaQ : List Int → Nat → Option ChromaResult)
    (query : String) (n_results : Nat) : SearchTrace :=
  match embedQ query with
  | none => ⟨.error "Search failed", true, false⟩
  | some emb =>
    match chromaQ emb n_results with
    | none => ⟨.error "Search failed", true, true⟩
    | some r =>
      match formatResults r 0 r.documents with
      | none => ⟨.error "Search failed", true, true⟩
      | some docs => ⟨.documents docs, true, true⟩

/-- What `_search_cached` did: payload, cache afterwards, collaborators. -/
structure CachedSearchOutcome where
  result : RagResult
  cache : Cache
  embedCalled : Bool
  queryCalled : Bool
deriving DecidableEq

/-- RAGTool._search_cached: reject a falsy query (`not query` is true exactly
for the empty string), try the cache (both payload shapes are truthy dicts,
so a hit is exactly a present key), otherwise run `_search` and
unconditionally store whatever it returned with a 30-minute TTL. -/
def search_cached (embedQ : String → Option (List Int))
    (chromaQ : List Int → Nat → Option ChromaResult)
    (cache : Cache) (query : String) (n_results : Nat) : CachedSearchOutcome :=
  if query = "" then ⟨.error "Query is required", cache, false, false⟩
  else
    match cache_get cache (generate_cache_key query n_results) with
    | some cached => ⟨cached, cache, false, false⟩
    | none =>
      let t := rag_search embedQ chromaQ query n_results
      ⟨t.result, cache_set cache (generate_cache_key query n_results) t.result 1800,
       t.embedCalled, t.queryCalled⟩

/-- RAGTool._add_document: reject falsy content, embed it (`embedDoc` is
`embed_document`, `none` = raised), add to Chroma (`chromaAdd` tells whether
`collection.add` succeeded), and on success clear every `rag_query:`-keyed
cache entry. Any exception yields an `error` payload with the cache
untouched. -/
def add_document (embedDoc : String → Option (List Int))
    (chromaAdd : String → List Int → Meta → Option String → Bool)
    (cache : Cache) (content : String) (metadata : Meta)
    (document_id : Option String) : RagResult × Cache :=
  if content = "" then (.error "Content is required", cache)
  else
    match embedDoc content with
    | none => (.error "Failed to add document", cache)
    | some emb =>
      if chromaAdd content emb metadata document_id then
        (.success "Document added successfully", clear_pattern "rag_query:" cache)
      else
        (.error "Failed to add document", cache)

/-! ## Text chunker (populate_kb.py, `TextChunker.chunk_text`)

Texts are lists of characters (Python strings are indexed and sliced by code
point). The chunk-size and overlap parameters are the non-negative integers
the CLI defaults and every claim use. The `while` loop is embedded with a
fuel argument instantiated at `len(text) + 1`; `none` models a loop that
does not reach its `break` within that budget, i.e. non-termination (with
`chunk_overlap < chunk_size` each iteration advances `start` by at least
one, so `len(text) + 1` iterations always suffice — proved below). -/

/-- A chunk dict: its text and its metadata. -/
structure Chunk where
  text : List Char
  metadata : Meta
deriving DecidableEq

/-- Python slice `text[s:e]` for `0 ≤ s, e`. -/
def pySlice (text : List Char) (s e : Nat) : List Char :=
  (text.drop s).take (e - s)

/-- The chunk-window end for a window starting at `start`: `start + cs`,
widened to the end of the text when the remainder past it would be shorter
than `ov / 2` (the source comparison `end > len(text) - chunk_overlap // 2`
is on Python ints, hence the signed comparison). -/
def chunkEnd (cs ov len start : Nat) : Nat :=
  if (len : Int) - (ov / 2 : Nat) < ((start + cs : Nat) : Int) then len
  else start + cs

/-- The chunk metadata: the four chunk fields merged into (a copy of) the
document metadata, in the source's update order. -/
def chunkMeta (meta : Meta) (idx s e size : Nat) : Meta :=
  dictSet (dictSet (dictSet (dictSet meta
    "chunk_index" (.n idx)) "chunk_start" (.n s)) "chunk_end" (.n e))
    "chunk_size" (.n size)

/-- One emitted chunk of the sliding-window loop. -/
def mkChunk (text : List Char) (meta : Meta) (idx s e : Nat) : Chunk :=
  ⟨pySlice text s e, chunkMeta meta idx s e (pySlice text s e).length⟩

/-- The `while start < len(text)` loop of `chunk_text`. -/
def chunkLoop (cs ov : Nat) (text : List Char) (meta : Meta) :
    Nat → Nat → List Chunk → Option (List Chunk)
  | 0, _, _ => none
  | fuel + 1, start, chunks =>
    if start < text.length then
      let e := chunkEnd cs ov text.length start
      let c := mkChunk text meta chunks.length start e
      if text.length ≤ e then some (chunks ++ [c])
      else chunkLoop cs ov text meta fuel (e - ov) (chunks ++ [c])
    else some chunks

/-- TextChunker.chunk_text: one whole-text chunk with an unmodified metadata
copy when the text fits in one window, otherwise the sliding-window loop. -/
def chunk_text (cs ov : Nat) (text : List Char) (meta : Meta) :
    Option (List Chunk) :=
  if text.length ≤ cs then some [⟨text, meta⟩]
  else chunkLoop cs ov text meta (text.length + 1) 0 []

/-! ## Knowledge-base population (populate_kb.py, `KnowledgeBasePopulator`) -/

/-- Outcome of a Python call that may raise or hang. -/
inductive PyResult (α : Type) where
  | ok (val : α)
  | exn
  | diverge
deriving DecidableEq

/-- The whitespace characters `str.strip()` removes (the ASCII ones; other
Unicode space code points do not occur in any claim). -/
def pyIsSpace (c : Char) : Bool :=
  c == ' ' || c == '\t' || c == '\n' || c == '\r' || c == '\x0b' || c == '\x0c'

/-- Python `text.strip()`. -/
def pyStrip (l : List Char) : List Char :=
  ((l.dropWhile pyIsSpace).reverse.dropWhile pyIsSpace).reverse

/-- A document as the batch loop sees it: either its extracted text and
metadata, or `fail` when `extract_text` raised for it. -/
inductive ExtractOutcome where
  | ok (text : List Char) (metadata : Meta)
  | fail
deriving DecidableEq

/-- The run counters the claims are about. -/
structure Stats where
  documents_processed : Nat
  documents_failed : Nat
  chunks_created : Nat
  embeddings_generated : Nat
deriving DecidableEq, Repr

/-- KnowledgeBasePopulator.process_document: re-raise an extraction failure,
return no chunks for text that strips to empty, otherwise chunk it. -/
def process_document (cs ov : Nat) (doc : ExtractOutcome) :
    PyResult (List Chunk) :=
  match doc with
  | .fail => .exn
  | .ok text meta =>
    if pyStrip text = [] then .ok []
    else
      match chunk_text cs ov text meta with
      | none => .diverge
      | some chunks => .ok chunks

/-- KnowledgeBasePopulator._generate_chunk_id: the MD5 hash of
`file_path:chunk_index`; a missing key is the `KeyError` of the subscript. -/
def generate_chunk_id (c : Chunk) : Option String :=
  match dictGet c.metadata "file_path", dictGet c.metadata "chunk_index" with
  | some p, some i => some (md5hex (mvalStr p ++ ":" ++ mvalStr i))
  | _, _ => none

/-- The id list comprehension of `store_chunks`, computed left to right;
`none` as soon as one chunk's id computation raises. -/
def chunkIds : List Chunk → Option (List String)
  | [] => some []
  | c :: rest => do
    let i ← generate_chunk_id c
    let tail ← chunkIds rest
    some (i :: tail)

/-- KnowledgeBasePopulator.store_chunks: compute all chunk ids and bulk-add
to Chroma inside one `try`; a `KeyError` from an id or a raise from
`collection.add` (`addOk = false`) is caught and returns `False`. -/
def store_chunks (addOk : Bool) (chunks : List Chunk) : Bool :=
  match chunkIds chunks with
  | none => false
  | some _ => addOk

/-- The per-document loop of `process_batch`: a document whose processing
raised increments `documents_failed` and is skipped; otherwise its chunks
are appended and `documents_processed` is incremented. -/
def batchDocsLoop (cs ov : Nat) :
    List ExtractOutcome → List Chunk → Stats → PyResult (List Chunk × Stats)
  | [], acc, st => .ok (acc, st)
  | d :: rest, acc, st =>
    match process_document cs ov d with
    | .diverge => .diverge
    | .exn =>
      batchDocsLoop cs ov rest acc
        { st with documents_failed := st.documents_failed + 1 }
    | .ok chunks =>
      batchDocsLoop cs ov rest (acc ++ chunks)
        { st with documents_processed := st.documents_processed + 1 }

/-- KnowledgeBasePopulator.process_batch: process every document, succeed
vacuously on an empty chunk list, embed all chunk texts in one batch
(`embed_documents` is total — its per-item failures become zero vectors),
then store; a storage failure fails the batch. -/
def process_batch (cs ov dim : Nat) (embedFn : String → Option (List Int))
    (addOk : Bool) (docs : List ExtractOutcome) (st : Stats) :
    PyResult (Bool × Stats) :=
  match batchDocsLoop cs ov docs [] st with
  | .diverge => .diverge
  | .exn => .exn
  | .ok (all_chunks, st1) =>
    if all_chunks = [] then .ok (true, st1)
    else
      let embeddings :=
        embed_documents dim embedFn (all_chunks.map fun c => String.mk c.text)
      let st2 := { st1 with
        embeddings_generated := st1.embeddings_generated + embeddings.length }
      if store_chunks addOk all_chunks then
        .ok (true, { st2 with
          chunks_created := st2.chunks_created + all_chunks.length })
      else .ok (false, st2)

/-- The batch loop of KnowledgeBasePopulator.populate: a failed batch aborts
the whole run with failure. -/
def populate_batches (cs ov dim : Nat) (embedFn : String → Option (List Int))
    (addOk : Bool) : List (List ExtractOutcome) → Stats → PyResult (Bool × Stats)
  | [], st => .ok (true, st)
  | b :: rest, st =>
    match process_batch cs ov dim embedFn addOk b st with
    | .diverge => .diverge
    | .exn => .exn
    | .ok (false, st1) => .ok (false, st1)
    | .ok (true, st1) => populate_batches cs ov dim embedFn addOk rest st1

/-! ## Auxiliary definitions for the proofs

A span view of the sliding-window loop: `spansFrom` computes only the
`(chunk_start, chunk_end)` pairs the loop emits, and `attachChunks` rebuilds
the chunk dicts from them; the two views are proved equal below. `SpanChain`
is the invariant the emitted spans satisfy. -/

/-- The `(start, end)` offset pairs the chunk loop emits from `start` on. -/
def spansFrom (cs ov len : Nat) : Nat → Nat → Option (List (Nat × Nat))
  | 0, _ => none
  | fuel + 1, start =>
    if start < len then
      if len ≤ chunkEnd cs ov len start then some [(start, chunkEnd cs ov len start)]
      else
        match spansFrom cs ov len fuel (chunkEnd cs ov len start - ov) with
        | none => none
        | some rest => some ((start, chunkEnd cs ov len start) :: rest)
    else some []

/-- Rebuild chunk dicts from spans, indexing from `base`. -/
def attachChunks (text : List Char) (meta : Meta) :
    Nat → List (Nat × Nat) → List Chunk
  | _, [] => []
  | base, (s, e) :: rest =>
    mkChunk text meta base s e :: attachChunks text meta (base + 1) rest

/-- The invariant of the emitted spans: each span starts where the loop's
`start` variable stood, ends at `chunkEnd` of that start, and is either the
final span (ending exactly at the text end) or is followed by the spans from
`end − overlap`. -/
def SpanChain (cs ov len : Nat) : Nat → List (Nat × Nat) → Prop
  | _, [] => False
  | start, (s, e) :: rest =>
    s = start ∧ e = chunkEnd cs ov len s ∧ s < len ∧
      ((rest = [] ∧ e = len) ∨ (e < len ∧ SpanChain cs ov len (e - ov) rest))

/-- The `(chunk_start, chunk_end)` offsets recorded in a chunk's metadata. -/
def spanOf (c : Chunk) : Option (Nat × Nat) :=
  match dictGet c.metadata "chunk_start", dictGet c.metadata "chunk_end" with
  | some (.n s), some (.n e) => some (s, e)
  | _, _ => none

/-- The offsets of every chunk in a list, `none` if any chunk lacks them. -/
def spanList : List Chunk → Option (List (Nat × Nat))
  | [] => some []
  | c :: rest => do
    let p ← spanOf c
    let tail ← spanList rest
    some (p :: tail)

/-! ## General helper lemmas -/

/-- Strings with equal character data are equal. -/
theorem string_data_inj {a b : String} (h : a.data = b.data) : a = b := by
  cases a; cases b; exact congrArg String.mk h

/-- A key just stored is found by lookup. -/
theorem cache_get_set_self (c : Cache) (k : String) (v : RagResult) (ttl : Nat) :
    cache_get (cache_set c k v ttl) k = some v := by
  simp [cache_get, cache_set, List.lookup]

/-- The generated cache key always begins with the search-result key space
marker `rag_query:`. -/
theorem generate_cache_key_starts (q : String) (n : Nat) :
    strStarts (generate_cache_key q n) "rag_query:" = true := by
  have h : ("rag_query:" : String).data <+:
      (generate_cache_key q n).data := by
    show ("rag_query:" : String).data <+:
      ("rag_query:" ++ md5hex q ++ ":" ++ toString n).data
    rw [String.data_append, String.data_append, String.data_append,
      List.append_assoc, List.append_assoc]
    exact List.prefix_append _ _
  exact List.isPrefixOf_iff_prefix.mpr h

/-- After clearing a key space, no key in it is found. -/
theorem cache_get_clear_pattern (p : String) (c : Cache) (k : String)
    (h : strStarts k p = true) : cache_get (clear_pattern p c) k = none := by
  induction c with
  | nil => rfl
  | cons kv rest ih =>
    by_cases hkeep : strStarts kv.1 p = true
    · simp [clear_pattern, hkeep] at ih ⊢
      exact ih
    · simp only [clear_pattern, List.filter] at ih ⊢
      simp only [Bool.not_eq_true] at hkeep
      rw [hkeep]
      simp only [cache_get, List.lookup]
      have hne : (k == kv.1) = false := by
        apply beq_eq_false_iff_ne.mpr
        intro he
        rw [he] at h
        rw [h] at hkeep
        cases hkeep
      rw [hne]
      exact ih

/-- `_search` always invokes the embedder, in every branch. -/
theorem rag_search_embedCalled (embedQ : String → Option (List Int))
    (chromaQ : List Int → Nat → Option ChromaResult) (q : String) (n : Nat) :
    (rag_search embedQ chromaQ q n).embedCalled = true := by
  unfold rag_search
  split
  · rfl
  · split
    · rfl
    · split
      · rfl
      · rfl

/-- A cached search with a nonempty query and a cache hit returns the cached
payload and calls nothing. -/
theorem search_cached_hit (embedQ : String → Option (List Int))
    (chromaQ : List Int → Nat → Option ChromaResult) (cache : Cache)
    (q : String) (n : Nat) (v : RagResult) (hq : q ≠ "")
    (h : cache_get cache (generate_cache_key q n) = some v) :
    search_cached embedQ chromaQ cache q n = ⟨v, cache, false, false⟩ := by
  unfold search_cached
  rw [if_neg hq, h]

/-- A cached search with a nonempty query and a cache miss runs `_search`
and stores whatever it returned, error payloads included, for 30 minutes. -/
theorem search_cached_miss (embedQ : String → Option (List Int))
    (chromaQ : List Int → Nat → Option ChromaResult) (cache : Cache)
    (q : String) (n : Nat) (hq : q ≠ "")
    (h : cache_get cache (generate_cache_key q n) = none) :
    search_cached embedQ chromaQ cache q n =
      ⟨(rag_search embedQ chromaQ q n).result,
       cache_set cache (generate_cache_key q n)
         (rag_search embedQ chromaQ q n).result 1800,
       (rag_search embedQ chromaQ q n).embedCalled,
       (rag_search embedQ chromaQ q n).queryCalled⟩ := by
  unfold search_cached
  rw [if_neg hq, h]

/-! ## Claim C6 -/

/-- Claim C6: `embed_documents` returns exactly one vector per input text,
in input order; an item whose embedding raises is replaced by a zero vector
of the model's dimensionality, a succeeding item keeps its own vector at its
own position, and even when every item fails the call returns a full list of
zero vectors rather than propagating the exception. -/
theorem embed_documents_spec (dim : Nat) (f : String → Option (List Int))
    (docs : List String) :
    (embed_documents dim f docs).length = docs.length ∧
    (∀ i, i < docs.length → f (docs.getD i "") = none →
      (embed_documents dim f docs).getD i [] = zeroVec dim) ∧
    (∀ i, i < docs.length → ∀ v, f (docs.getD i "") = some v →
      (embed_documents dim f docs).getD i [] = v) ∧
    ((∀ d ∈ docs, f d = none) →
      embed_documents dim f docs = List.replicate docs.length (zeroVec dim)) := by
  induction docs with
  | nil =>
    refine ⟨rfl, ?_, ?_, fun _ => rfl⟩
    · intro i hi
      simp at hi
    · intro i hi
      simp at hi
  | cons d rest ih =>
    obtain ⟨ih1, ih2, ih3, ih4⟩ := ih
    refine ⟨?_, ?_, ?_, ?_⟩
    · simp [embed_documents, ih1]
    · intro i hi hf
      cases i with
      | zero =>
        simp only [List.getD_cons_zero] at hf
        simp [embed_documents, hf]
      | succ j =>
        simp only [List.getD_cons_succ] at hf ⊢
        show (embed_documents dim f rest).getD j [] = zeroVec dim
        exact ih2 j (by simpa using hi) hf
    · intro i hi v hf
      cases i with
      | zero =>
        simp only [List.getD_cons_zero] at hf
        simp [embed_documents, hf]
      | succ j =>
        simp only [List.getD_cons_succ] at hf ⊢
        show (embed_documents dim f rest).getD j [] = v
        exact ih3 j (by simpa using hi) v hf
    · intro hall
      have hd : f d = none := hall d (List.mem_cons_self d rest)
      have hrest := ih4 fun x hx => hall x (List.mem_cons_of_mem d hx)
      simp [embed_documents, hd, List.replicate_succ] at hrest ⊢
      exact hrest

/-- Witness for C6 at a concrete failing second item. -/
theorem embed_documents_spec_witness :
    (1 < (["ok", "bad"] : List String).length ∧
      (fun x => if x = "ok" then some ([3, 4] : List Int) else none)
        ((["ok", "bad"] : List String).getD 1 "") = none) ∧
    (embed_documents 2 (fun x => if x = "ok" then some ([3, 4] : List Int) else none)
        ["ok", "bad"]).getD 1 [] = zeroVec 2 :=
  ⟨⟨by decide, by decide⟩,
   (embed_documents_spec 2 (fun x => if x = "ok" then some ([3, 4] : List Int) else none)
      ["ok", "bad"]).2.1 1 (by decide) (by decide)⟩

/-! ## Claim C1 -/

/-- Claim C1 is false on the code: with an embedder that raises, the miss
path of `_search_cached` returns an error payload and writes that very
payload into the query cache, and an identical search within the TTL — here
even with an embedder that would now succeed — returns the cached error
without re-attempting embedding or the index query. -/
theorem search_error_cached_cex :
    (search_cached (fun _ => none) (fun _ _ => none) [] "q" 5).result =
      .error "Search failed" ∧
    cache_get (search_cached (fun _ => none) (fun _ _ => none) [] "q" 5).cache
      (generate_cache_key "q" 5) = some (.error "Search failed") ∧
    search_cached (fun _ => some [1]) (fun _ _ => none)
        (search_cached (fun _ => none) (fun _ _ => none) [] "q" 5).cache "q" 5 =
      ⟨.error "Search failed",
       (search_cached (fun _ => none) (fun _ _ => none) [] "q" 5).cache,
       false, false⟩ := by
  have h2 : cache_get (search_cached (fun _ => none) (fun _ _ => none) [] "q" 5).cache
      (generate_cache_key "q" 5) = some (.error "Search failed") :=
    cache_get_set_self [] (generate_cache_key "q" 5) (.error "Search failed") 1800
  exact ⟨rfl, h2,
    search_cached_hit (fun _ => some [1]) (fun _ _ => none) _ "q" 5
      (.error "Search failed") (by decide) h2⟩

/-- Claim C1 (amended): on a cache miss with a nonempty query, whatever
`_search` returns — a success payload or an error payload alike — is
written to the query cache with the 30-minute TTL, and a subsequent
identical search within the TTL returns that cached payload (a cached error
included) without re-attempting embedding or the index query. -/
theorem search_miss_caches_result (embedQ embedQ' : String → Option (List Int))
    (chromaQ chromaQ' : List Int → Nat → Option ChromaResult)
    (cache : Cache) (q : String) (n : Nat) (hq : q ≠ "")
    (hmiss : cache_get cache (generate_cache_key q n) = none) :
    cache_get (search_cached embedQ chromaQ cache q n).cache
        (generate_cache_key q n) =
      some (search_cached embedQ chromaQ cache q n).result ∧
    search_cached embedQ' chromaQ'
        (search_cached embedQ chromaQ cache q n).cache q n =
      ⟨(search_cached embedQ chromaQ cache q n).result,
       (search_cached embedQ chromaQ cache q n).cache, false, false⟩ := by
  rw [search_cached_miss embedQ chromaQ cache q n hq hmiss]
  constructor
  · exact cache_get_set_self cache (generate_cache_key q n) _ 1800
  · exact search_cached_hit embedQ' chromaQ' _ q n _ hq
      (cache_get_set_self cache (generate_cache_key q n) _ 1800)

/-- Witness for the amended C1 at a concrete failing embedder. -/
theorem search_miss_caches_result_witness :
    (("q" : String) ≠ "" ∧ cache_get [] (generate_cache_key "q" 5) = none) ∧
    cache_get (search_cached (fun _ => none) (fun _ _ => none) [] "q" 5).cache
        (generate_cache_key "q" 5) =
      some (search_cached (fun _ => none) (fun _ _ => none) [] "q" 5).result :=
  ⟨⟨by decide, rfl⟩,
   (search_miss_caches_result (fun _ => none) (fun _ => none)
      (fun _ _ => none) (fun _ _ => none) [] "q" 5 (by decide) rfl).1⟩

/-! ## Claim C7 -/

/-- Claim C7 is false on the code: a whitespace-only query is truthy in
Python, so `if not query` does not reject it — the embedder is invoked
(here it raises, so the call ends in a search error, not the empty-query
error). -/
theorem whitespace_query_embeds_cex :
    (search_cached (fun _ => none) (fun _ _ => none) [] " " 5).embedCalled = true ∧
    (search_cached (fun _ => none) (fun _ _ => none) [] " " 5).result =
      .error "Search failed" := by
  constructor
  · rfl
  · rfl

/-- Claim C7 (amended): only the genuinely empty query is rejected with the
query-required error before any embedding work; a nonempty query — a
whitespace-only one included — that misses the cache goes on to invoke the
embedder. -/
theorem empty_query_rejected (embedQ : String → Option (List Int))
    (chromaQ : List Int → Nat → Option ChromaResult) (cache : Cache) (n : Nat) :
    search_cached embedQ chromaQ cache "" n =
      ⟨.error "Query is required", cache, false, false⟩ ∧
    ∀ q, q ≠ "" → cache_get cache (generate_cache_key q n) = none →
      (search_cached embedQ chromaQ cache q n).embedCalled = true := by
  constructor
  · rfl
  · intro q hq hmiss
    rw [search_cached_miss embedQ chromaQ cache q n hq hmiss]
    exact rag_search_embedCalled embedQ chromaQ q n

/-- Witness for the amended C7: the empty query is rejected; the
whitespace-only query is not and reaches the embedder. -/
theorem empty_query_rejected_witness :
    ((" " : String) ≠ "" ∧ cache_get [] (generate_cache_key " " 5) = none) ∧
    (search_cached (fun _ => none) (fun _ _ => none) [] " " 5).embedCalled = true :=
  ⟨⟨by decide, rfl⟩,
   (empty_query_rejected (fun _ => none) (fun _ _ => none) [] 5).2 " "
     (by decide) rfl⟩

/-! ## Claim C8 -/

/-- Claim C8: every `add_document` call that returns success clears every
cache entry in the `rag_query:` key space — in particular every search
cache key — so a subsequent search for any query computes a fresh result
via `_search` instead of returning a stale cached payload. -/
theorem add_document_invalidates_cache
    (embedDoc : String → Option (List Int))
    (chromaAdd : String → List Int → Meta → Option String → Bool)
    (cache : Cache) (content : String) (metadata : Meta)
    (document_id : Option String) (msg : String)
    (h : (add_document embedDoc chromaAdd cache content metadata document_id).1 =
      .success msg)
    (embedQ : String → Option (List Int))
    (chromaQ : List Int → Nat → Option ChromaResult) :
    (∀ k, strStarts k "rag_query:" = true →
      cache_get (add_document embedDoc chromaAdd cache content metadata
        document_id).2 k = none) ∧
    (∀ q n, cache_get (add_document embedDoc chromaAdd cache content metadata
        document_id).2 (generate_cache_key q n) = none) ∧
    (∀ q n, q ≠ "" →
      (search_cached embedQ chromaQ
        (add_document embedDoc chromaAdd cache content metadata document_id).2
        q n).result = (rag_search embedQ chromaQ q n).result) := by
  have hc : (add_document embedDoc chromaAdd cache content metadata
      document_id).2 = clear_pattern "rag_query:" cache := by
    unfold add_document at h ⊢
    by_cases h1 : content = ""
    · rw [if_pos h1] at h
      cases h
    · rw [if_neg h1] at h ⊢
      cases h2 : embedDoc content with
      | none => rw [h2] at h; cases h
      | some emb =>
        rw [h2] at h
        dsimp only at h ⊢
        by_cases h3 : chromaAdd content emb metadata document_id
        · rw [if_pos h3]
        · rw [if_neg h3] at h
          cases h
  rw [hc]
  refine ⟨fun k hk => cache_get_clear_pattern _ cache k hk, fun q n => ?_, ?_⟩
  · exact cache_get_clear_pattern _ cache _ (generate_cache_key_starts q n)
  · intro q n hq
    rw [search_cached_miss embedQ chromaQ _ q n hq
      (cache_get_clear_pattern _ cache _ (generate_cache_key_starts q n))]

/-- Witness for C8: a concrete successful add over a cache holding a stale
search entry, which is gone afterwards. -/
theorem add_document_invalidates_cache_witness :
    (add_document (fun _ => some [1]) (fun _ _ _ _ => true)
        [("rag_query:stale", .error "stale")] "doc" [] none).1 =
      .success "Document added successfully" ∧
    cache_get (add_document (fun _ => some [1]) (fun _ _ _ _ => true)
        [("rag_query:stale", .error "stale")] "doc" [] none).2
      "rag_query:stale" = none :=
  ⟨rfl,
   (add_document_invalidates_cache (fun _ => some [1]) (fun _ _ _ _ => true)
      [("rag_query:stale", .error "stale")] "doc" [] none
      "Document added successfully" rfl (fun _ => none) (fun _ _ => none)).1
      "rag_query:stale" (by decide)⟩

/-! ## Claim C4 -/

set_option maxRecDepth 400000 in
/-- Claim C4 is false on the code: `_generate_cache_key` hashes the raw
query with no lower/trim normalization, so a query differing only in
surrounding whitespace, or only in letter case, lands in a different cache
slot. -/
theorem cache_key_not_normalized_cex :
    generate_cache_key " a" 5 ≠ generate_cache_key "a" 5 ∧
    generate_cache_key "A" 5 ≠ generate_cache_key "a" 5 := by
  constructor
  · decide
  · decide

/-- Claim C4 (amended): the cache key is derived from the raw,
un-normalized query text together with the result count: it is determined
by the query text's MD5 digest, so two query texts — in particular two
differing only in whitespace or case — share a cache slot exactly when
their digests agree, and land in different slots whenever the digests
differ. -/
theorem cache_key_raw_md5 (q1 q2 : String) (n : Nat)
    (h : md5hex q1 ≠ md5hex q2) :
    generate_cache_key q1 n ≠ generate_cache_key q2 n := by
  intro he
  apply h
  have hd := congrArg String.data he
  simp only [generate_cache_key, String.data_append] at hd
  apply string_data_inj
  exact List.append_cancel_left
    (List.append_cancel_right (List.append_cancel_right hd))

set_option maxRecDepth 400000 in
/-- Witness for the amended C4 at the concrete case-differing pair. -/
theorem cache_key_raw_md5_witness :
    md5hex "a" ≠ md5hex "A" ∧
    generate_cache_key "a" 5 ≠ generate_cache_key "A" 5 :=
  ⟨by decide, cache_key_raw_md5 "a" "A" 5 (by decide)⟩

/-! ## Chunk-loop lemmas -/

/-- The window end is either the text end (widened final window) or exactly
`start + cs`, in which case at least `ov / 2` characters remain after it. -/
theorem chunkEnd_cases (cs ov len start : Nat) :
    chunkEnd cs ov len start = len ∨
    (chunkEnd cs ov len start = start + cs ∧ start + cs + ov / 2 ≤ len) := by
  unfold chunkEnd
  split
  · left
    rfl
  · right
    refine ⟨rfl, ?_⟩
    rename_i hc
    omega

/-- The window end never passes the text end. -/
theorem chunkEnd_le (cs ov len start : Nat) : chunkEnd cs ov len start ≤ len := by
  rcases chunkEnd_cases cs ov len start with h | ⟨h, h2⟩ <;> omega

/-- The window is nonempty when the chunk size is positive and the start is
inside the text. -/
theorem chunkEnd_pos (cs ov len start : Nat) (hcs : 0 < cs) (hlt : start < len) :
    start < chunkEnd cs ov len start := by
  rcases chunkEnd_cases cs ov len start with h | ⟨h, h2⟩ <;> omega

/-- The chunk loop is the span recursion with the chunk dicts attached. -/
theorem chunkLoop_eq_spansFrom (cs ov : Nat) (text : List Char) (meta : Meta) :
    ∀ fuel start acc,
      chunkLoop cs ov text meta fuel start acc =
        (spansFrom cs ov text.length fuel start).map
          (fun sps => acc ++ attachChunks text meta acc.length sps) := by
  intro fuel
  induction fuel with
  | zero => intro start acc; rfl
  | succ f ih =>
    intro start acc
    by_cases h : start < text.length
    · simp only [chunkLoop, spansFrom, if_pos h]
      by_cases h2 : text.length ≤ chunkEnd cs ov text.length start
      · rw [if_pos h2, if_pos h2]
        rfl
      · rw [if_neg h2, if_neg h2, ih]
        cases hs : spansFrom cs ov text.length f
            (chunkEnd cs ov text.length start - ov) with
        | none => rfl
        | some rest =>
          simp [attachChunks, List.length_append, List.append_assoc]
    · simp only [chunkLoop, spansFrom, if_neg h]
      simp [attachChunks]

/-- With a positive advance (`ov < cs`), fuel exceeding the remaining length
suffices for the span recursion to finish. -/
theorem spansFrom_isSome (cs ov len : Nat) (hov : ov < cs) :
    ∀ fuel start, len - start < fuel → (spansFrom cs ov len fuel start).isSome := by
  intro fuel
  induction fuel with
  | zero => intro start h; omega
  | succ f ih =>
    intro start h
    simp only [spansFrom]
    by_cases h1 : start < len
    · rw [if_pos h1]
      by_cases h2 : len ≤ chunkEnd cs ov len start
      · rw [if_pos h2]
        rfl
      · rw [if_neg h2]
        have he : chunkEnd cs ov len start = start + cs := by
          rcases chunkEnd_cases cs ov len start with h3 | ⟨h3, _⟩ <;> omega
        have hrec := ih (chunkEnd cs ov len start - ov) (by omega)
        cases hs : spansFrom cs ov len f (chunkEnd cs ov len start - ov) with
        | none => rw [hs] at hrec; cases hrec
        | some rest => rfl
    · rw [if_neg h1]
      rfl

/-- Claim-C9 helper: with `ov < cs` the chunker always returns. -/
theorem chunk_text_isSome (cs ov : Nat) (text : List Char) (meta : Meta)
    (hov : ov < cs) : (chunk_text cs ov text meta).isSome := by
  unfold chunk_text
  by_cases h : text.length ≤ cs
  · rw [if_pos h]
    rfl
  · rw [if_neg h, chunkLoop_eq_spansFrom]
    have := spansFrom_isSome cs ov text.length hov (text.length + 1) 0 (by omega)
    cases hs : spansFrom cs ov text.length (text.length + 1) 0 with
    | none => rw [hs] at this; cases this
    | some sps => rfl

/-- The spans the loop emits satisfy the chain invariant. -/
theorem spansFrom_chain (cs ov len : Nat) :
    ∀ fuel start sps, start < len →
      spansFrom cs ov len fuel start = some sps →
      SpanChain cs ov len start sps := by
  intro fuel
  induction fuel with
  | zero =>
    intro start sps _ h
    cases h
  | succ f ih =>
    intro start sps h1 h
    rw [spansFrom, if_pos h1] at h
    by_cases h2 : len ≤ chunkEnd cs ov len start
    · rw [if_pos h2] at h
      cases h
      exact ⟨rfl, rfl, h1, .inl ⟨rfl, Nat.le_antisymm (chunkEnd_le cs ov len start) h2⟩⟩
    · rw [if_neg h2] at h
      cases hs : spansFrom cs ov len f (chunkEnd cs ov len start - ov) with
      | none => rw [hs] at h; cases h
      | some rest =>
        rw [hs] at h
        cases h
        have he : chunkEnd cs ov len start - ov < len := by
          have := chunkEnd_le cs ov len start
          omega
        exact ⟨rfl, rfl, h1, .inr ⟨by omega, ih _ rest he hs⟩⟩

/-- Every span is nonempty (given a positive chunk size) and ends inside the
text. -/
theorem spanChain_bounds (cs ov len : Nat) (hcs : 0 < cs) :
    ∀ sps start, SpanChain cs ov len start sps →
      ∀ p ∈ sps, p.1 < p.2 ∧ p.2 ≤ len := by
  intro sps
  induction sps with
  | nil =>
    intro start h
    cases h
  | cons hd tl ih =>
    intro start h p hp
    obtain ⟨s, e⟩ := hd
    obtain ⟨hs, he, hlt, hrest⟩ := h
    rcases List.mem_cons.mp hp with rfl | hmem
    · subst he
      exact ⟨chunkEnd_pos cs ov len s hcs hlt, chunkEnd_le cs ov len s⟩
    · rcases hrest with ⟨rfl, _⟩ | ⟨_, hc⟩
      · cases hmem
      · exact ih _ hc p hmem

/-- Every position from the chain's start to the text end lies inside some
span: the spans cover with no gaps. -/
theorem spanChain_cover (cs ov len : Nat) :
    ∀ sps start, SpanChain cs ov len start sps →
      ∀ k, start ≤ k → k < len → ∃ p ∈ sps, p.1 ≤ k ∧ k < p.2 := by
  intro sps
  induction sps with
  | nil =>
    intro start h
    cases h
  | cons hd tl ih =>
    intro start h k hk1 hk2
    obtain ⟨s, e⟩ := hd
    obtain ⟨hs, he, hlt, hrest⟩ := h
    subst hs
    by_cases hke : k < e
    · exact ⟨(s, e), List.mem_cons_self _ _, hk1, hke⟩
    · rcases hrest with ⟨rfl, rfl⟩ | ⟨hel, hc⟩
      · omega
      · obtain ⟨p, hp, hp1, hp2⟩ := ih (e - ov) hc k (by omega) hk2
        exact ⟨p, List.mem_cons_of_mem _ hp, hp1, hp2⟩

/-- The final span ends exactly at the text end. -/
theorem spanChain_getLast (cs ov len : Nat) :
    ∀ sps start, SpanChain cs ov len start sps →
      ∃ p, sps.getLast? = some p ∧ p.2 = len := by
  intro sps
  induction sps with
  | nil =>
    intro start h
    cases h
  | cons hd tl ih =>
    intro start h
    obtain ⟨s, e⟩ := hd
    obtain ⟨hs, he, hlt, hrest⟩ := h
    rcases hrest with ⟨rfl, hee⟩ | ⟨hel, hc⟩
    · exact ⟨(s, e), rfl, hee⟩
    · obtain ⟨p, hp, hpe⟩ := ih (e - ov) hc
      cases tl with
      | nil => cases hc
      | cons q qs => exact ⟨p, by rw [List.getLast?_cons_cons]; exact hp, hpe⟩

/-- The first span starts at the chain's start. -/
theorem spanChain_head (cs ov len start : Nat) (sps : List (Nat × Nat))
    (h : SpanChain cs ov len start sps) :
    ∃ e, sps.head? = some (start, e) := by
  cases sps with
  | nil => cases h
  | cons hd tl =>
    obtain ⟨s, e⟩ := hd
    obtain ⟨hs, _, _, _⟩ := h
    subst hs
    exact ⟨e, rfl⟩

/-- Each non-final span spans exactly `cs` characters, and the next span
starts exactly `ov` characters before it ends and ends no earlier. -/
theorem spanChain_adjacent (cs ov len : Nat) (hov : ov < cs) :
    ∀ sps start, SpanChain cs ov len start sps →
      List.Chain' (fun p q => p.2 = p.1 + cs ∧ q.1 + ov = p.2 ∧ p.2 ≤ q.2) sps := by
  intro sps
  induction sps with
  | nil =>
    intro start h
    cases h
  | cons hd tl ih =>
    intro start h
    obtain ⟨s, e⟩ := hd
    obtain ⟨hs, he, hlt, hrest⟩ := h
    rcases hrest with ⟨rfl, rfl⟩ | ⟨hel, hc⟩
    · simp
    · have hcs : e = s + cs := by
        rcases chunkEnd_cases cs ov len s with h3 | ⟨h3, _⟩ <;> omega
      have hchain := ih (e - ov) hc
      cases tl with
      | nil => cases hc
      | cons q qs =>
        obtain ⟨s', e'⟩ := q
        obtain ⟨hs', he', hlt', _⟩ := hc
        rw [List.chain'_cons]
        refine ⟨⟨hcs, ?_, ?_⟩, hchain⟩
        · omega
        · have hle := chunkEnd_le cs ov len s'
          rcases chunkEnd_cases cs ov len s' with h4 | ⟨h4, _⟩ <;> omega

/-- Rebuilt chunks recover exactly their spans. -/
theorem spanList_attachChunks (text : List Char) (meta : Meta) :
    ∀ sps base, spanList (attachChunks text meta base sps) = some sps := by
  intro sps
  induction sps with
  | nil => intro base; rfl
  | cons hd tl ih =>
    intro base
    obtain ⟨s, e⟩ := hd
    show spanList (mkChunk text meta base s e :: attachChunks text meta (base + 1) tl)
      = some ((s, e) :: tl)
    rw [spanList]
    have h1 : spanOf (mkChunk text meta base s e) = some (s, e) := rfl
    rw [h1, ih (base + 1)]
    rfl

/-- Length of the rebuilt chunk list. -/
theorem attachChunks_length (text : List Char) (meta : Meta) :
    ∀ sps base, (attachChunks text meta base sps).length = sps.length := by
  intro sps
  induction sps with
  | nil => intro base; rfl
  | cons hd tl ih =>
    intro base
    obtain ⟨s, e⟩ := hd
    show (mkChunk text meta base s e :: attachChunks text meta (base + 1) tl).length
      = tl.length + 1
    simp [ih (base + 1)]

/-- The `i`-th rebuilt chunk is the chunk of the `i`-th span, indexed from
`base`. -/
theorem attachChunks_get (text : List Char) (meta : Meta) :
    ∀ sps base i (h1 : i < (attachChunks text meta base sps).length)
      (h2 : i < sps.length),
      (attachChunks text meta base sps).get ⟨i, h1⟩ =
        mkChunk text meta (base + i) (sps.get ⟨i, h2⟩).1 (sps.get ⟨i, h2⟩).2 := by
  intro sps
  induction sps with
  | nil =>
    intro base i h1 h2
    simp at h2
  | cons hd tl ih =>
    intro base i h1 h2
    obtain ⟨s, e⟩ := hd
    cases i with
    | zero => rfl
    | succ j =>
      have h1' : j < (attachChunks text meta (base + 1) tl).length := by
        rw [attachChunks_length] at h1 ⊢
        simpa using h1
      have h2' : j < tl.length := by simpa using h2
      show (attachChunks text meta (base + 1) tl).get ⟨j, h1'⟩ = _
      rw [ih (base + 1) j h1' h2']
      congr 1
      omega

/-! ## Chunk metadata lookup lemmas -/

/-- The chunk dict records its index. -/
theorem dictGet_mkChunk_index (text : List Char) (meta : Meta) (i s e : Nat) :
    dictGet (mkChunk text meta i s e).metadata "chunk_index" = some (.n i) := rfl

/-- The chunk dict records its start offset. -/
theorem dictGet_mkChunk_start (text : List Char) (meta : Meta) (i s e : Nat) :
    dictGet (mkChunk text meta i s e).metadata "chunk_start" = some (.n s) := rfl

/-- The chunk dict records its end offset. -/
theorem dictGet_mkChunk_end (text : List Char) (meta : Meta) (i s e : Nat) :
    dictGet (mkChunk text meta i s e).metadata "chunk_end" = some (.n e) := rfl

/-- The chunk dict records the emitted slice's length as its size. -/
theorem dictGet_mkChunk_size (text : List Char) (meta : Meta) (i s e : Nat) :
    dictGet (mkChunk text meta i s e).metadata "chunk_size" =
      some (.n (pySlice text s e).length) := rfl

/-- The chunk's text is the emitted slice. -/
theorem mkChunk_text (text : List Char) (meta : Meta) (i s e : Nat) :
    (mkChunk text meta i s e).text = pySlice text s e := rfl

/-- Keys other than the four chunk fields read through to the document
metadata the chunk dict was merged into. -/
theorem dictGet_chunkMeta_other (m : Meta) (i s e z : Nat) (k : String)
    (h1 : k ≠ "chunk_index") (h2 : k ≠ "chunk_start")
    (h3 : k ≠ "chunk_end") (h4 : k ≠ "chunk_size") :
    dictGet (chunkMeta m i s e z) k = dictGet m k := by
  simp [dictGet, chunkMeta, dictSet, List.lookup,
    beq_eq_false_iff_ne.mpr h1, beq_eq_false_iff_ne.mpr h2,
    beq_eq_false_iff_ne.mpr h3, beq_eq_false_iff_ne.mpr h4]

/-- The multi-chunk result of `chunk_text`, viewed through its spans. -/
theorem chunk_text_to_spans (cs ov : Nat) (text : List Char) (meta : Meta)
    (cks : List Chunk) (hlen : cs < text.length)
    (h : chunk_text cs ov text meta = some cks) :
    ∃ sps, spansFrom cs ov text.length (text.length + 1) 0 = some sps ∧
      cks = attachChunks text meta 0 sps ∧
      SpanChain cs ov text.length 0 sps := by
  unfold chunk_text at h
  rw [if_neg (by omega), chunkLoop_eq_spansFrom] at h
  cases hs : spansFrom cs ov text.length (text.length + 1) 0 with
  | none =>
    rw [hs] at h
    cases h
  | some sps =>
    rw [hs] at h
    simp only [Option.map_some', List.length_nil, List.nil_append] at h
    cases h
    exact ⟨sps, rfl, rfl, spansFrom_chain cs ov text.length _ 0 sps
      (by omega) hs⟩

/-! ## Claim C5 -/

/-- Claim C5: for a text longer than the chunk size (with
`0 ≤ chunk_overlap < chunk_size`), the recorded chunk offsets
`[chunk_start, chunk_end)` cover `[0, len(text))` with no gaps — every
position lies inside some chunk, every chunk is a nonempty in-range span —
and every pair of consecutive chunks overlaps by exactly `chunk_overlap`
characters (even the final pair, which the claim allows to differ). -/
theorem chunk_text_cover_overlap (cs ov : Nat) (text : List Char)
    (meta : Meta) (cks : List Chunk) (hov : ov < cs) (hlen : cs < text.length)
    (h : chunk_text cs ov text meta = some cks) :
    ∃ sps : List (Nat × Nat),
      spanList cks = some sps ∧
      sps.length = cks.length ∧
      (∀ k, k < text.length → ∃ p ∈ sps, p.1 ≤ k ∧ k < p.2) ∧
      (∀ p ∈ sps, p.1 < p.2 ∧ p.2 ≤ text.length) ∧
      List.Chain' (fun p q => min p.2 q.2 - max p.1 q.1 = ov) sps := by
  obtain ⟨sps, hsp, rfl, hchain⟩ := chunk_text_to_spans cs ov text meta cks hlen h
  refine ⟨sps, spanList_attachChunks text meta sps 0,
    (attachChunks_length text meta sps 0).symm, ?_, ?_, ?_⟩
  · intro k hk
    exact spanChain_cover cs ov text.length sps 0 hchain k (Nat.zero_le k) hk
  · exact spanChain_bounds cs ov text.length (by omega) sps 0 hchain
  · refine List.Chain'.imp ?_ (spanChain_adjacent cs ov text.length hov sps 0 hchain)
    intro a b hab
    omega

/-- Witness for C5 at a concrete text of length 8 with window 3, overlap 1. -/
theorem chunk_text_cover_overlap_witness :
    (1 < 3 ∧ 3 < ("abcdefgh".data).length) ∧
    ∃ cks sps, chunk_text 3 1 ("abcdefgh".data) [] = some cks ∧
      spanList cks = some sps ∧
      (∀ k, k < ("abcdefgh".data).length → ∃ p ∈ sps, p.1 ≤ k ∧ k < p.2) ∧
      (∀ p ∈ sps, p.1 < p.2 ∧ p.2 ≤ ("abcdefgh".data).length) ∧
      List.Chain' (fun p q => min p.2 q.2 - max p.1 q.1 = 1) sps := by
  refine ⟨⟨by decide, by decide⟩, ?_⟩
  obtain ⟨cks, hcks⟩ := Option.isSome_iff_exists.mp
    (chunk_text_isSome 3 1 ("abcdefgh".data) [] (by decide))
  obtain ⟨sps, h1, _, h3, h4, h5⟩ :=
    chunk_text_cover_overlap 3 1 ("abcdefgh".data) [] cks (by decide)
      (by decide) hcks
  exact ⟨cks, sps, hcks, h1, h3, h4, h5⟩

/-! ## Claim C9 -/

/-- Claim C9: for every finite text and parameters with
`0 ≤ chunk_overlap < chunk_size`, `chunk_text` terminates — the sliding
window loop, run with fuel `len(text) + 1`, reaches `end ≥ len(text)` and
returns within that budget (each iteration advances `start` by
`chunk_size − chunk_overlap ≥ 1`). -/
theorem chunk_text_terminates (cs ov : Nat) (text : List Char) (meta : Meta)
    (hov : ov < cs) : (chunk_text cs ov text meta).isSome :=
  chunk_text_isSome cs ov text meta hov

/-- Witness for C9 at the default parameters. -/
theorem chunk_text_terminates_witness :
    200 < 1000 ∧ (chunk_text 1000 200 ("hello".data) []).isSome :=
  ⟨by decide, chunk_text_terminates 1000 200 ("hello".data) [] (by decide)⟩

/-! ## Claim C2 -/

/-- Claim C2 is false on the code: the single chunk emitted for a text no
longer than the chunk size carries only the copied document metadata — none
of `chunk_index`, `chunk_start`, `chunk_end`, `chunk_size` is present. -/
theorem single_chunk_no_fields_cex :
    chunk_text 1000 200 ("hi".data) [("file_path", .s "doc.txt")] =
      some [⟨"hi".data, [("file_path", .s "doc.txt")]⟩] ∧
    dictGet (Chunk.mk ("hi".data) [("file_path", .s "doc.txt")]).metadata
      "chunk_index" = none ∧
    dictGet (Chunk.mk ("hi".data) [("file_path", .s "doc.txt")]).metadata
      "chunk_start" = none ∧
    dictGet (Chunk.mk ("hi".data) [("file_path", .s "doc.txt")]).metadata
      "chunk_end" = none ∧
    dictGet (Chunk.mk ("hi".data) [("file_path", .s "doc.txt")]).metadata
      "chunk_size" = none :=
  ⟨rfl, rfl, rfl, rfl, rfl⟩

/-- Claim C2 (amended): a text no longer than the chunk size yields exactly
one chunk carrying the whole text and an unmodified copy of the document
metadata, without the four chunk fields; every chunk emitted by the
sliding-window path carries `chunk_index` equal to its position (sequential
from 0), `chunk_start`, `chunk_end`, and `chunk_size` equal to the emitted
slice's length, merged into a copy of the document metadata (all other keys
read through to it). -/
theorem chunk_text_metadata (cs ov : Nat) (text : List Char) (meta : Meta) :
    (text.length ≤ cs → chunk_text cs ov text meta = some [⟨text, meta⟩]) ∧
    (∀ cks, cs < text.length → chunk_text cs ov text meta = some cks →
      ∀ i, (hi : i < cks.length) →
        dictGet (cks.get ⟨i, hi⟩).metadata "chunk_index" = some (.n i) ∧
        ∃ s e, dictGet (cks.get ⟨i, hi⟩).metadata "chunk_start" = some (.n s) ∧
          dictGet (cks.get ⟨i, hi⟩).metadata "chunk_end" = some (.n e) ∧
          (cks.get ⟨i, hi⟩).text = pySlice text s e ∧
          dictGet (cks.get ⟨i, hi⟩).metadata "chunk_size" =
            some (.n (cks.get ⟨i, hi⟩).text.length) ∧
          ∀ k, k ≠ "chunk_index" → k ≠ "chunk_start" → k ≠ "chunk_end" →
            k ≠ "chunk_size" →
            dictGet (cks.get ⟨i, hi⟩).metadata k = dictGet meta k) := by
  constructor
  · intro h
    simp [chunk_text, h]
  · intro cks hlen h i hi
    obtain ⟨sps, hsp, heq, hchain⟩ := chunk_text_to_spans cs ov text meta cks hlen h
    subst heq
    have hi2 : i < sps.length := by
      rw [attachChunks_length] at hi
      exact hi
    rw [attachChunks_get text meta sps 0 i hi hi2]
    rw [Nat.zero_add]
    refine ⟨dictGet_mkChunk_index text meta i _ _,
      (sps.get ⟨i, hi2⟩).1, (sps.get ⟨i, hi2⟩).2,
      dictGet_mkChunk_start text meta i _ _,
      dictGet_mkChunk_end text meta i _ _,
      mkChunk_text text meta i _ _, ?_, ?_⟩
    · rw [mkChunk_text, dictGet_mkChunk_size]
    · intro k h1 h2 h3 h4
      exact dictGet_chunkMeta_other meta i _ _ _ k h1 h2 h3 h4

/-- Witness for the amended C2: the short-text branch at a concrete input. -/
theorem chunk_text_metadata_witness :
    ("hi".data).length ≤ 1000 ∧
    chunk_text 1000 200 ("hi".data) [("file_path", .s "doc.txt")] =
      some [⟨"hi".data, [("file_path", .s "doc.txt")]⟩] :=
  ⟨by decide,
   (chunk_text_metadata 1000 200 ("hi".data) [("file_path", .s "doc.txt")]).1
     (by decide)⟩

/-! ## Batch-processing lemmas -/

/-- A document with whitespace-only extracted text yields no chunks and no
exception. -/
theorem process_document_blank (cs ov : Nat) (text : List Char) (meta : Meta)
    (h : pyStrip text = []) :
    process_document cs ov (.ok text meta) = .ok [] := by
  simp [process_document, h]

/-- A document whose non-blank text fits in one window yields exactly the
single whole-text chunk with untouched metadata. -/
theorem process_document_short (cs ov : Nat) (text : List Char) (meta : Meta)
    (hnb : pyStrip text ≠ []) (hshort : text.length ≤ cs) :
    process_document cs ov (.ok text meta) = .ok [⟨text, meta⟩] := by
  have hct : chunk_text cs ov text meta = some [⟨text, meta⟩] := by
    simp [chunk_text, hshort]
  simp [process_document, hnb, hct]

/-- With `ov < cs` no document processing can hang. -/
theorem process_document_ne_diverge (cs ov : Nat) (d : ExtractOutcome)
    (hov : ov < cs) : process_document cs ov d ≠ .diverge := by
  cases d with
  | fail => simp [process_document]
  | ok text meta =>
    by_cases h : pyStrip text = []
    · simp [process_document, h]
    · have := chunk_text_isSome cs ov text meta hov
      cases hct : chunk_text cs ov text meta with
      | none => rw [hct] at this; cases this
      | some cks => simp [process_document, h, hct]

/-- A chunk without the `chunk_index` key has no id: the subscript raises. -/
theorem generate_chunk_id_none (text : List Char) (meta : Meta)
    (hidx : dictGet meta "chunk_index" = none) :
    generate_chunk_id ⟨text, meta⟩ = none := by
  cases h1 : dictGet meta "file_path" <;>
    simp [generate_chunk_id, h1, hidx]

/-- One raising id computation poisons the whole id list. -/
theorem chunkIds_none_of_mem (l : List Chunk) (c : Chunk) (hc : c ∈ l)
    (hnone : generate_chunk_id c = none) : chunkIds l = none := by
  induction l with
  | nil => cases hc
  | cons d rest ih =>
    rcases List.mem_cons.mp hc with rfl | hmem
    · simp [chunkIds, hnone]
    · cases h1 : generate_chunk_id d with
      | none => simp [chunkIds, h1]
      | some i => simp [chunkIds, h1, ih hmem]

/-- With `ov < cs` the per-document loop always completes, keeps the chunks
it accumulated, and collects the chunks of every successfully processed
document. -/
theorem batchDocsLoop_ok (cs ov : Nat) (hov : ov < cs) :
    ∀ docs acc st, ∃ all st2,
      batchDocsLoop cs ov docs acc st = .ok (all, st2) ∧
      (∀ c ∈ acc, c ∈ all) ∧
      (∀ d ∈ docs, ∀ cks, process_document cs ov d = .ok cks →
        ∀ c ∈ cks, c ∈ all) := by
  intro docs
  induction docs with
  | nil =>
    intro acc st
    refine ⟨acc, st, rfl, fun c hc => hc, ?_⟩
    intro d hd
    cases hd
  | cons d rest ih =>
    intro acc st
    cases hp : process_document cs ov d with
    | diverge => exact absurd hp (process_document_ne_diverge cs ov d hov)
    | exn =>
      obtain ⟨all, st2, h1, h2, h3⟩ := ih acc
        { st with documents_failed := st.documents_failed + 1 }
      refine ⟨all, st2, ?_, h2, ?_⟩
      · simp only [batchDocsLoop, hp]
        exact h1
      · intro d' hd' cks hcks c hc
        rcases List.mem_cons.mp hd' with rfl | hmem
        · rw [hp] at hcks
          cases hcks
        · exact h3 d' hmem cks hcks c hc
    | ok cks =>
      obtain ⟨all, st2, h1, h2, h3⟩ := ih (acc ++ cks)
        { st with documents_processed := st.documents_processed + 1 }
      refine ⟨all, st2, ?_, ?_, ?_⟩
      · simp only [batchDocsLoop, hp]
        exact h1
      · intro c hc
        exact h2 c (List.mem_append_left _ hc)
      · intro d' hd' cks' hcks' c hc
        rcases List.mem_cons.mp hd' with rfl | hmem
        · rw [hp] at hcks'
          cases hcks'
          exact h2 c (List.mem_append_right _ hc)
        · exact h3 d' hmem cks' hcks' c hc

/-! ## Claim C3 -/

/-- Claim C3: a batch containing a document whose extracted non-blank text
fits in one window (so its single chunk lacks `chunk_index`) makes the store
step fail — `_generate_chunk_id` raises `KeyError`, `store_chunks` returns
`False`, `process_batch` returns `False`, and the run over that batch aborts
with failure. -/
theorem short_doc_aborts_run (cs ov dim : Nat)
    (embedFn : String → Option (List Int)) (addOk : Bool)
    (docs : List ExtractOutcome) (text : List Char) (meta : Meta) (st : Stats)
    (hov : ov < cs) (hmem : ExtractOutcome.ok text meta ∈ docs)
    (hnb : pyStrip text ≠ []) (hshort : text.length ≤ cs)
    (hidx : dictGet meta "chunk_index" = none) :
    ∃ st2, process_batch cs ov dim embedFn addOk docs st = .ok (false, st2) ∧
      populate_batches cs ov dim embedFn addOk [docs] st = .ok (false, st2) := by
  obtain ⟨all, st1, h1, _, h3⟩ := batchDocsLoop_ok cs ov hov docs [] st
  have hmem2 : (⟨text, meta⟩ : Chunk) ∈ all :=
    h3 _ hmem [⟨text, meta⟩]
      (process_document_short cs ov text meta hnb hshort) _
      (List.mem_singleton.mpr rfl)
  have hne : all ≠ [] := List.ne_nil_of_mem hmem2
  have hsc : store_chunks addOk all = false := by
    unfold store_chunks
    rw [chunkIds_none_of_mem all ⟨text, meta⟩ hmem2
      (generate_chunk_id_none text meta hidx)]
  have hpb : process_batch cs ov dim embedFn addOk docs st =
      .ok (false, { st1 with embeddings_generated := st1.embeddings_generated +
        (embed_documents dim embedFn (all.map fun c => String.mk c.text)).length }) := by
    unfold process_batch
    rw [h1]
    simp only [if_neg hne, hsc, if_neg (Bool.false_ne_true)]
  refine ⟨_, hpb, ?_⟩
  unfold populate_batches
  rw [hpb]

/-- Witness for C3 at a concrete one-document batch. -/
theorem short_doc_aborts_run_witness :
    (200 < 1000 ∧
      ExtractOutcome.ok ("hi".data) [("file_path", .s "doc.txt")] ∈
        [ExtractOutcome.ok ("hi".data) [("file_path", .s "doc.txt")]] ∧
      pyStrip ("hi".data) ≠ [] ∧ ("hi".data).length ≤ 1000 ∧
      dictGet [("file_path", .s "doc.txt")] "chunk_index" = none) ∧
    ∃ st2, process_batch 1000 200 3 (fun _ => none) true
        [ExtractOutcome.ok ("hi".data) [("file_path", .s "doc.txt")]]
        ⟨0, 0, 0, 0⟩ = .ok (false, st2) :=
  ⟨⟨by decide, by decide, by decide, by decide, rfl⟩, by
    obtain ⟨st2, h1, _⟩ := short_doc_aborts_run 1000 200 3 (fun _ => none) true
      [ExtractOutcome.ok ("hi".data) [("file_path", .s "doc.txt")]]
      ("hi".data) [("file_path", .s "doc.txt")] ⟨0, 0, 0, 0⟩
      (by decide) (by decide) (by decide) (by decide) rfl
    exact ⟨st2, h1⟩⟩

/-! ## Claim C10 -/

/-- Claim C10 is false on the code: a batch holding one document whose
extraction yielded whitespace-only text succeeds and reports
`documents_processed = 1, documents_failed = 0` — the blank document is
counted as processed, not folded into the failure counter. -/
theorem blank_doc_counted_processed_cex :
    process_batch 1000 200 3 (fun _ => none) true
      [ExtractOutcome.ok [' '] []] ⟨0, 0, 0, 0⟩ = .ok (true, ⟨1, 0, 0, 0⟩) := by
  rfl

/-- Claim C10 (amended): a document whose extraction yields empty or
whitespace-only text is logged and skipped without failing the batch — it
contributes no chunks and the loop continues — but it increments
`documents_processed`, leaving `documents_failed` untouched, rather than
being folded into the failure counter. -/
theorem blank_doc_processed_not_failed (cs ov : Nat) (text : List Char)
    (meta : Meta) (h : pyStrip text = []) :
    (∀ rest acc st, batchDocsLoop cs ov (.ok text meta :: rest) acc st =
      batchDocsLoop cs ov rest acc
        { st with documents_processed := st.documents_processed + 1 }) ∧
    (∀ dim embedFn addOk st,
      process_batch cs ov dim embedFn addOk [.ok text meta] st =
        .ok (true, { st with
          documents_processed := st.documents_processed + 1 })) := by
  have hpd := process_document_blank cs ov text meta h
  constructor
  · intro rest acc st
    simp only [batchDocsLoop, hpd, List.append_nil]
  · intro dim embedFn addOk st
    have hb : batchDocsLoop cs ov [.ok text meta] [] st =
        .ok ([], { st with
          documents_processed := st.documents_processed + 1 }) := by
      simp only [batchDocsLoop, hpd, List.append_nil]
    unfold process_batch
    rw [hb]
    rfl

/-- Witness for the amended C10 at a concrete whitespace document. -/
theorem blank_doc_processed_not_failed_witness :
    pyStrip (" ".data) = [] ∧
    process_batch 1000 200 3 (fun _ => none) true
      [ExtractOutcome.ok (" ".data) []] ⟨4, 2, 0, 0⟩ = .ok (true, ⟨5, 2, 0, 0⟩) :=
  ⟨by decide,
   (blank_doc_processed_not_failed 1000 200 (" ".data) [] (by decide)).2
     3 (fun _ => none) true ⟨4, 2, 0, 0⟩⟩
